import Mathlib

/-!
Shallow embedding of the `lyftr-backend` webhook service.

The embedded code comes from `src/app/storage.py` (`insert_message`),
`src/app/models.py` (`init_db` schema, `get_messages`, `get_stats`) and
`src/app/main.py` (`verify_signature`, the `/webhook` handler and the
`/messages` handler).  The SQLite table `messages(message_id TEXT PRIMARY
KEY, from_msisdn TEXT NOT NULL, to_msisdn TEXT NOT NULL, ts TEXT NOT NULL,
text TEXT, created_at TEXT NOT NULL)` is modelled as a `List Row`; SQL
string comparison (BINARY collation, i.e. byte order of the UTF-8
encoding, which coincides with code-point order) is modelled by an
explicit lexicographic comparison on `String.data`; `ORDER BY` is modelled
by `List.insertionSort`; the SQL `LIKE` operator (ASCII-case-insensitive,
with `%` and `_` wildcards) is modelled by `likeMatch`.  Python `dict`
values for the webhook JSON object are modelled by `PyVal` (a key can be
absent, `null`, or a string), and Python exceptions by `Except PyErr`.
-/

namespace Lyftr

/-- Strict lexicographic order on lists of characters by code point.  This is
exactly SQLite's BINARY collation on the UTF-8 encodings of the two strings,
since UTF-8 byte order agrees with code-point order. -/
def strLtChars : List Char → List Char → Bool
  | [], [] => false
  | [], _ :: _ => true
  | _ :: _, [] => false
  | a :: as, b :: bs => a.toNat < b.toNat || (a.toNat == b.toNat && strLtChars as bs)

/-- Reflexive lexicographic order on lists of characters by code point. -/
def strLeChars : List Char → List Char → Bool
  | [], _ => true
  | _ :: _, [] => false
  | a :: as, b :: bs => a.toNat < b.toNat || (a.toNat == b.toNat && strLeChars as bs)

/-- ASCII lower-casing of one character, as SQLite's `LIKE` applies it:
only the letters A-Z are folded. -/
def lowerAscii (c : Char) : Char :=
  if 65 ≤ c.toNat && c.toNat ≤ 90 then Char.ofNat (c.toNat + 32) else c

/-- All suffixes of a character list, longest first (ending with `[]`). -/
def allSuffixes : List Char → List (List Char)
  | [] => [[]]
  | c :: cs => (c :: cs) :: allSuffixes cs

/-- SQLite `LIKE` pattern matching: `%` matches any (possibly empty) sequence,
`_` matches exactly one character, and any other pattern character matches a
text character equal to it up to ASCII case folding. -/
def likeMatch : List Char → List Char → Bool
  | [], cs => cs.isEmpty
  | p :: ps, cs =>
    if p == '%' then (allSuffixes cs).any (fun s => likeMatch ps s)
    else
      match cs with
      | [] => false
      | c :: cs' => (p == '_' || lowerAscii p == lowerAscii c) && likeMatch ps cs'

/-- A JSON-object value for one key of the webhook body, with Python dict
semantics: the key can be missing (`msg[k]` raises `KeyError`), `null`
(SQLite receives `NULL`), or a string. -/
inductive PyVal where
  | absent
  | null
  | str (s : String)
deriving DecidableEq, Repr

/-- The Python exceptions the embedded code can raise. -/
inductive PyErr where
  | keyError
  | attributeError
  | typeError
deriving DecidableEq, Repr

instance exceptDecEq {ε α : Type} [DecidableEq ε] [DecidableEq α] :
    DecidableEq (Except ε α) := fun x y =>
  match x, y with
  | .error e, .error f =>
    if h : e = f then isTrue (by rw [h]) else isFalse (by simp [h])
  | .error _, .ok _ => isFalse (by simp)
  | .ok _, .error _ => isFalse (by simp)
  | .ok a, .ok b =>
    if h : a = b then isTrue (by rw [h]) else isFalse (by simp [h])

/-- The webhook JSON body as `insert_message` reads it: the keys
`message_id`, `from`, `to`, `ts` via `msg[...]` and `text` via `msg.get`. -/
structure Msg where
  message_id : PyVal
  from_ : PyVal
  to_ : PyVal
  ts : PyVal
  text : PyVal
deriving DecidableEq, Repr

/-- One row of the `messages` table.  `message_id` is nullable: SQLite
permits `NULL` in a `TEXT PRIMARY KEY` column (the PK uniqueness constraint
only applies to non-null values); the other columns are declared `NOT NULL`
(`text` is nullable). -/
structure Row where
  message_id : Option String
  from_msisdn : String
  to_msisdn : String
  ts : String
  text : Option String
  created_at : String
deriving DecidableEq, Repr

/-- `msg[k]`: a missing key raises `KeyError`; otherwise the value
(`none` = JSON null). -/
def pyKey : PyVal → Except PyErr (Option String)
  | .absent => .error .keyError
  | .null => .ok none
  | .str s => .ok (some s)

/-- `msg.get(k)`: a missing key and a null value both give `None`. -/
def pyGet : PyVal → Option String
  | .absent => none
  | .null => none
  | .str s => some s

/-- Does the table already hold a row whose primary key is the (non-null)
string `i`? -/
def hasId (t : List Row) (i : String) : Bool :=
  t.any (fun r => r.message_id == some i)

/-- `storage.insert_message`: reads the five fields of the dict (in the order
of the SQL parameter tuple, so a missing required key raises `KeyError`
before anything is written), then executes the `INSERT`.  SQLite raises
`IntegrityError` both for a duplicate (non-null) primary key and for a
`NULL` in a `NOT NULL` column; the function catches `sqlite3.IntegrityError`
and returns `"duplicate"` with the table unchanged, returns `"created"`
after appending the row otherwise, and re-raises any other exception.
`now` is the server-assigned `created_at` value
(`datetime.utcnow().isoformat() + "Z"`). -/
def insert_message (t : List Row) (m : Msg) (now : String) :
    Except PyErr (String × List Row) :=
  match pyKey m.message_id with
  | .error e => .error e
  | .ok i =>
    match pyKey m.from_ with
    | .error e => .error e
    | .ok f =>
      match pyKey m.to_ with
      | .error e => .error e
      | .ok tto =>
        match pyKey m.ts with
        | .error e => .error e
        | .ok tsv =>
          match f, tto, tsv with
          | some fv, some tv, some sv =>
            if (match i with | some iv => hasId t iv | none => false) then
              .ok ("duplicate", t)
            else
              .ok ("created", t ++ [⟨i, fv, tv, sv, pyGet m.text, now⟩])
          | _, _, _ =>
            -- a NULL in a NOT NULL column: IntegrityError, caught as "duplicate"
            .ok ("duplicate", t)

/-- The `WHERE` clause `get_messages` builds: a clause is added only when the
Python value is truthy, so `None` and the empty string both impose no
constraint.  `from_msisdn = ?` is exact equality, `ts >= ?` is the inclusive
lexical bound, and `text LIKE '%' || q || '%'` is `likeMatch`; a `NULL`
`text` makes the `LIKE` predicate `NULL`, which the `WHERE` clause treats as
not matching. -/
def matchesFilters (from_f since q : Option String) (r : Row) : Bool :=
  (match from_f with
    | none => true
    | some f => if f == "" then true else r.from_msisdn == f)
  && (match since with
    | none => true
    | some s => if s == "" then true else strLeChars s.data r.ts.data)
  && (match q with
    | none => true
    | some qs =>
      if qs == "" then true
      else match r.text with
        | none => false
        | some tx => likeMatch ('%' :: (qs.data ++ ['%'])) tx.data)

/-- `ORDER BY ts ASC, message_id ASC` as a Boolean comparison; SQLite sorts
`NULL` first in ascending order. -/
def optIdLe : Option String → Option String → Bool
  | none, _ => true
  | some _, none => false
  | some a, some b => strLeChars a.data b.data

/-- The row comparison of `ORDER BY ts ASC, message_id ASC`. -/
def rowLe (a b : Row) : Bool :=
  strLtChars a.ts.data b.ts.data || (a.ts == b.ts && optIdLe a.message_id b.message_id)

/-- `rowLe` as a binary relation, for `List.insertionSort`. -/
def rowOrder (a b : Row) : Prop := rowLe a b = true

instance rowOrder.decidableRel : DecidableRel rowOrder :=
  fun a b => inferInstanceAs (Decidable (rowLe a b = true))

/-- Strict version of `optIdLe`. -/
def optIdLt : Option String → Option String → Bool
  | none, none => false
  | none, some _ => true
  | some _, none => false
  | some a, some b => strLtChars a.data b.data

/-- The strict row comparison of the deterministic total order
`(ts ascending, message_id ascending)`. -/
def rowLt (a b : Row) : Bool :=
  strLtChars a.ts.data b.ts.data || (a.ts == b.ts && optIdLt a.message_id b.message_id)

/-- The row projection of the `SELECT` column list of `get_messages` (everything
but `created_at`), with the JSON field renaming `from_msisdn ↦ from`,
`to_msisdn ↦ to` left implicit. -/
structure MsgOut where
  message_id : Option String
  from_msisdn : String
  to_msisdn : String
  ts : String
  text : Option String
deriving DecidableEq, Repr

/-- The `SELECT message_id, from_msisdn, to_msisdn, ts, text` projection. -/
def projRow (r : Row) : MsgOut :=
  ⟨r.message_id, r.from_msisdn, r.to_msisdn, r.ts, r.text⟩

/-- The value `models.get_messages` returns. -/
structure QueryResult where
  data : List MsgOut
  total : Nat
  limit : Nat
  offset : Nat
deriving DecidableEq, Repr

/-- `models.get_messages(limit, offset, from_msisdn, since, q)`: one `COUNT`
query and one page query over the same `WHERE` clause; the page is
`ORDER BY ts ASC, message_id ASC LIMIT limit OFFSET offset`. -/
def get_messages (t : List Row) (limit offset : Nat)
    (from_msisdn since q : Option String) : QueryResult :=
  let matched := t.filter (matchesFilters from_msisdn since q)
  let sorted := List.insertionSort rowOrder matched
  { data := ((sorted.drop offset).take limit).map projRow
    total := matched.length
    limit := limit
    offset := offset }

/-- The value `models.get_stats` returns.  `messages_per_sender` is a Python
float division `total / unique_senders`; it is modelled as an exact rational. -/
structure Stats where
  total_messages : Nat
  senders_count : Nat
  messages_per_sender : ℚ
  first_message_ts : Option String
  last_message_ts : Option String
deriving DecidableEq, Repr

/-- `SELECT MIN(ts) FROM messages`: `NULL` on an empty table. -/
def minTs : List Row → Option String
  | [] => none
  | r :: rs =>
    some (match minTs rs with
      | none => r.ts
      | some m => if strLeChars r.ts.data m.data then r.ts else m)

/-- `SELECT MAX(ts) FROM messages`: `NULL` on an empty table. -/
def maxTs : List Row → Option String
  | [] => none
  | r :: rs =>
    some (match maxTs rs with
      | none => r.ts
      | some m => if strLeChars m.data r.ts.data then r.ts else m)

/-- Number of distinct values in a list (each value is counted at its last
occurrence). -/
def distinctCount : List String → Nat
  | [] => 0
  | s :: rest => (if rest.contains s then 0 else 1) + distinctCount rest

/-- Number of distinct `from_msisdn` values: both `len(by_sender)` (from the
`GROUP BY from_msisdn` query) and `COUNT(DISTINCT from_msisdn)` compute
this. -/
def distinctSenders (t : List Row) : Nat :=
  distinctCount (t.map Row.from_msisdn)

/-- `models.get_stats`.  The first/last timestamps go through the Python
truthiness test `row["first_ts"] if row["first_ts"] else None`, so both a
SQL `NULL` (empty table) and an empty-string minimum/maximum are reported
as `None`. -/
def get_stats (t : List Row) : Stats :=
  let total := t.length
  let unique_senders := distinctSenders t
  { total_messages := total
    senders_count := distinctSenders t
    messages_per_sender :=
      if 0 < unique_senders then (total : ℚ) / (unique_senders : ℚ) else 0
    first_message_ts :=
      match minTs t with
      | none => none
      | some s => if s == "" then none else some s
    last_message_ts :=
      match maxTs t with
      | none => none
      | some s => if s == "" then none else some s }

/-! SHA-256 and HMAC, modelling Python's `hashlib.sha256` / `hmac.new(...)
.hexdigest()` on byte lists, with 32-bit words as `Nat` truncated mod 2^32. -/

/-- Truncation to a 32-bit word. -/
def m32 (x : Nat) : Nat := x % 4294967296

/-- 32-bit right rotation (for `0 < n < 32` and `x < 2^32`). -/
def rotr (n x : Nat) : Nat := m32 ((x >>> n) ||| (x <<< (32 - n)))

/-- SHA-256 choice function; the 32-bit complement of `x` is `x ^^^ (2^32-1)`. -/
def ch (x y z : Nat) : Nat := (x &&& y) ^^^ ((x ^^^ 4294967295) &&& z)

/-- SHA-256 majority function. -/
def maj (x y z : Nat) : Nat := (x &&& y) ^^^ (x &&& z) ^^^ (y &&& z)

/-- SHA-256 big sigma 0. -/
def bsig0 (x : Nat) : Nat := rotr 2 x ^^^ rotr 13 x ^^^ rotr 22 x

/-- SHA-256 big sigma 1. -/
def bsig1 (x : Nat) : Nat := rotr 6 x ^^^ rotr 11 x ^^^ rotr 25 x

/-- SHA-256 small sigma 0. -/
def ssig0 (x : Nat) : Nat := rotr 7 x ^^^ rotr 18 x ^^^ (x >>> 3)

/-- SHA-256 small sigma 1. -/
def ssig1 (x : Nat) : Nat := rotr 17 x ^^^ rotr 19 x ^^^ (x >>> 10)

/-- The 64 SHA-256 round constants. -/
def k256 : List Nat :=
  [1116352408, 1899447441, 3049323471, 3921009573,
   961987163, 1508970993, 2453635748, 2870763221,
   3624381080, 310598401, 607225278, 1426881987,
   1925078388, 2162078206, 2614888103, 3248222580,
   3835390401, 4022224774, 264347078, 604807628,
   770255983, 1249150122, 1555081692, 1996064986,
   2554220882, 2821834349, 2952996808, 3210313671,
   3336571891, 3584528711, 113926993, 338241895,
   666307205, 773529912, 1294757372, 1396182291,
   1695183700, 1986661051, 2177026350, 2456956037,
   2730485921, 2820302411, 3259730800, 3345764771,
   3516065817, 3600352804, 4094571909, 275423344,
   430227734, 506948616, 659060556, 883997877,
   958139571, 1322822218, 1537002063, 1747873779,
   1955562222, 2024104815, 2227730452, 2361852424,
   2428436474, 2756734187, 3204031479, 3329325298]

/-- The rolling SHA-256 state of eight 32-bit words. -/
structure Hash8 where
  a : Nat
  b : Nat
  c : Nat
  d : Nat
  e : Nat
  f : Nat
  g : Nat
  h : Nat
deriving DecidableEq, Repr

/-- The SHA-256 initial hash value. -/
def h256 : Hash8 :=
  ⟨1779033703, 3144134277, 1013904242, 2773480762,
   1359893119, 2600822924, 528734635, 1541459225⟩

/-- The next word of the SHA-256 message schedule, from the last 16 words. -/
def nextW (w : List Nat) : Nat :=
  let n := w.length
  m32 (ssig1 (w.getD (n - 2) 0) + w.getD (n - 7) 0
    + ssig0 (w.getD (n - 15) 0) + w.getD (n - 16) 0)

/-- Extend the 16-word block by `k` schedule words. -/
def extendW : List Nat → Nat → List Nat
  | w, 0 => w
  | w, k + 1 => extendW (w ++ [nextW w]) k

/-- One SHA-256 compression round. -/
def round256 (st : Hash8) (k w : Nat) : Hash8 :=
  let t1 := m32 (st.h + bsig1 st.e + ch st.e st.f st.g + k + w)
  let t2 := m32 (bsig0 st.a + maj st.a st.b st.c)
  ⟨m32 (t1 + t2), st.a, st.b, st.c, m32 (st.d + t1), st.e, st.f, st.g⟩

/-- Word-wise mod-2^32 addition of two states. -/
def add8 (x y : Hash8) : Hash8 :=
  ⟨m32 (x.a + y.a), m32 (x.b + y.b), m32 (x.c + y.c), m32 (x.d + y.d),
   m32 (x.e + y.e), m32 (x.f + y.f), m32 (x.g + y.g), m32 (x.h + y.h)⟩

/-- Compress one 16-word block into the state. -/
def processBlock (st : Hash8) (block : List Nat) : Hash8 :=
  let w := extendW block 48
  add8 st ((w.zip k256).foldl (fun s p => round256 s p.2 p.1) st)

/-- Big-endian 32-bit words from a byte list (whose length is a multiple
of 4). -/
def wordsOfBytes : List Nat → List Nat
  | b0 :: b1 :: b2 :: b3 :: rest =>
    ((b0 <<< 24) ||| (b1 <<< 16) ||| (b2 <<< 8) ||| b3) :: wordsOfBytes rest
  | _ => []

/-- The 8-byte big-endian encoding of the 64-bit message bit length. -/
def be8 (n : Nat) : List Nat :=
  [(n >>> 56) % 256, (n >>> 48) % 256, (n >>> 40) % 256, (n >>> 32) % 256,
   (n >>> 24) % 256, (n >>> 16) % 256, (n >>> 8) % 256, n % 256]

/-- SHA-256 padding: `0x80`, zeros to 56 mod 64, then the bit length. -/
def padBytes (msg : List Nat) : List Nat :=
  msg ++ [128] ++ List.replicate ((119 - msg.length % 64) % 64) 0
      ++ be8 (8 * msg.length)

/-- Fold the compression function over the 16-word blocks. -/
def processBlocks : Hash8 → List Nat → Hash8
  | st, [] => st
  | st, w :: ws =>
    processBlocks (processBlock st ((w :: ws).take 16)) ((w :: ws).drop 16)
  termination_by _ ws => ws.length
  decreasing_by simp; omega

/-- The 4-byte big-endian encoding of a 32-bit word. -/
def be4 (n : Nat) : List Nat :=
  [(n >>> 24) % 256, (n >>> 16) % 256, (n >>> 8) % 256, n % 256]

/-- The 32-byte digest of a final state. -/
def hash8Bytes (st : Hash8) : List Nat :=
  be4 st.a ++ be4 st.b ++ be4 st.c ++ be4 st.d
    ++ be4 st.e ++ be4 st.f ++ be4 st.g ++ be4 st.h

/-- SHA-256 of a byte list. -/
def sha256Bytes (msg : List Nat) : List Nat :=
  hash8Bytes (processBlocks h256 (wordsOfBytes (padBytes msg)))

/-- A lowercase hex digit. -/
def hexDigit (n : Nat) : Char :=
  if n < 10 then Char.ofNat (48 + n) else Char.ofNat (87 + n)

/-- Lowercase hex encoding of a byte list (`.hexdigest()`). -/
def hexOfBytes (bs : List Nat) : List Char :=
  bs.foldr (fun b acc => hexDigit (b / 16) :: hexDigit (b % 16) :: acc) []

/-- The UTF-8 encoding of one character (Python `str.encode()`). -/
def utf8Char (c : Char) : List Nat :=
  let n := c.toNat
  if n < 128 then [n]
  else if n < 2048 then [192 ||| (n >>> 6), 128 ||| (n &&& 63)]
  else if n < 65536 then
    [224 ||| (n >>> 12), 128 ||| ((n >>> 6) &&& 63), 128 ||| (n &&& 63)]
  else
    [240 ||| (n >>> 18), 128 ||| ((n >>> 12) &&& 63),
     128 ||| ((n >>> 6) &&& 63), 128 ||| (n &&& 63)]

/-- The UTF-8 bytes of a string. -/
def utf8Bytes (s : String) : List Nat :=
  s.data.foldr (fun c acc => utf8Char c ++ acc) []

/-- `hmac.new(secret.encode(), body, hashlib.sha256).hexdigest()`. -/
def hmacSha256Hex (secret : String) (body : List Nat) : String :=
  let key := utf8Bytes secret
  let key2 := if 64 < key.length then sha256Bytes key else key
  let kpad := key2 ++ List.replicate (64 - key2.length) 0
  let ipad := kpad.map (fun b => b ^^^ 54)
  let opad := kpad.map (fun b => b ^^^ 92)
  String.mk (hexOfBytes (sha256Bytes (opad ++ sha256Bytes (ipad ++ body))))

/-- Is every character of the string ASCII? -/
def isAsciiStr (s : String) : Bool :=
  s.data.all (fun c => c.toNat < 128)

/-- `hmac.compare_digest` on two `str` arguments: a constant-time comparison,
functionally string equality, but CPython raises
`TypeError("comparing strings with non-ASCII characters is not supported")`
when either string contains a non-ASCII character. -/
def compare_digest (a b : String) : Except PyErr Bool :=
  if isAsciiStr a && isAsciiStr b then .ok (a == b) else .error .typeError

/-- `main.verify_signature(secret, body, signature)`: computes the hex
HMAC-SHA256 digest of the exact raw body bytes under the secret and compares
it with the provided signature via `hmac.compare_digest`.  Called with
`None` as `secret` it raises `AttributeError` (`None.encode()`); called
with `None` as `signature`, `compare_digest(str, None)` raises `TypeError`;
called with a signature string containing a non-ASCII character (reachable:
Starlette decodes headers as latin-1), `compare_digest` also raises
`TypeError` (the computed digest itself is always ASCII hex). -/
def verify_signature (secret : Option String) (body : List Nat)
    (signature : Option String) : Except PyErr Bool :=
  match secret with
  | none => .error .attributeError
  | some s =>
    match signature with
    | none => .error .typeError
    | some sig => compare_digest (hmacSha256Hex s body) sig

/-- The responses of `POST /webhook` (200, 401, 400, 503, 500). -/
inductive HttpResp where
  | ok
  | unauthorized
  | badRequest
  | unavailable
  | internalError
deriving DecidableEq, Repr

/-- The `POST /webhook` handler of `main.py`.  `rawBody` is the exact raw
request body; `jsonBody` is the outcome of `await request.json()` on it
(`none` models a JSON parse failure, whose `ValueError` is mapped to 400).
The secret check is Python truthiness (`if not WEBHOOK_SECRET`), the
signature guard is `if not signature or not verify_signature(...)`, so a
missing or empty header yields 401 without calling the verifier; both
`"created"` and `"duplicate"` insert outcomes are mapped to 200
`{status: ok}`; any other exception from the insert (e.g. `KeyError` for a
missing required key) is caught by `except Exception` and mapped to 500. -/
def webhook (secret : Option String) (rawBody : List Nat)
    (sigHeader : Option String) (jsonBody : Option Msg)
    (t : List Row) (now : String) : HttpResp × List Row :=
  if secret = none ∨ secret = some "" then (.unavailable, t)
  else
    match sigHeader with
    | none => (.unauthorized, t)
    | some sig =>
      if sig = "" then (.unauthorized, t)
      else
        match verify_signature secret rawBody (some sig) with
        -- the verifier call sits outside the handler's try/except, so an
        -- exception there (TypeError on a non-ASCII header) surfaces as the
        -- framework's generic 500, not as 401
        | .error _ => (.internalError, t)
        | .ok false => (.unauthorized, t)
        | .ok true =>
          match jsonBody with
          | none => (.badRequest, t)
          | some m =>
            match insert_message t m now with
            | .ok (_, t2) => (.ok, t2)
            | .error _ => (.internalError, t)

/-- The responses of `GET /messages`: 200 with the query result, or
FastAPI's 422 validation error for an out-of-range parameter. -/
inductive ListResp where
  | ok (r : QueryResult)
  | validationError
deriving DecidableEq, Repr

/-- The `GET /messages` handler of `main.py`.  FastAPI's
`Query(50, ge=1, le=100)` and `Query(0, ge=0)` take the default when the
parameter is absent and reject an out-of-range value with a 422 validation
error (no clamping); a validated request delegates to `get_messages` and
returns its result verbatim.  (The handler's `except` clause would map a
storage exception to 500; the embedded `get_messages` is total.) -/
def list_messages (limit offset : Option Int) (from_param since q : Option String)
    (t : List Row) : ListResp :=
  let l := limit.getD 50
  let o := offset.getD 0
  if l < 1 ∨ 100 < l ∨ o < 0 then .validationError
  else .ok (get_messages t l.toNat o.toNat from_param since q)

/-- Case-sensitive substring occurrence.  This follows the SPEC's wording for
`text_query` ("a case-sensitive substring match on `text`"), for comparison
with the code's actual `LIKE` semantics (`likeMatch`). -/
def specCsSubstring (q t : List Char) : Bool :=
  (List.range (t.length + 1)).any (fun i => ((t.drop i).take q.length) == q)

/-- Is this dict key missing? -/
def isAbsent : PyVal → Bool
  | .absent => true
  | _ => false

/-- Is this dict value JSON null? -/
def isNull : PyVal → Bool
  | .null => true
  | _ => false

/-- One of the four required dict keys is missing, so building the SQL
parameter tuple raises `KeyError` (re-raised by `insert_message`). -/
def requiredAbsent (m : Msg) : Bool :=
  isAbsent m.message_id || isAbsent m.from_ || isAbsent m.to_ || isAbsent m.ts

/-- The `INSERT` raises `sqlite3.IntegrityError`: the non-null primary key
already exists, or a `NOT NULL` column receives `NULL`. -/
def integrityViolation (t : List Row) (m : Msg) : Bool :=
  (match m.message_id with | .str iv => hasId t iv | _ => false)
    || isNull m.from_ || isNull m.to_ || isNull m.ts

/-- The string content of a `PyVal` (defaulting to `""`; only used where the
value is known to be a string). -/
def pyStr : PyVal → String
  | .str s => s
  | _ => ""

/-- The row a successful `INSERT` stores for the message. -/
def rowOfMsg (m : Msg) (now : String) : Row :=
  ⟨pyGet m.message_id, pyStr m.from_, pyStr m.to_, pyStr m.ts, pyGet m.text, now⟩

/-! Lemmas about the lexicographic string comparison. -/

theorem char_toNat_inj {a b : Char} (h : a.toNat = b.toNat) : a = b := by
  rw [← Char.ofNat_toNat a, ← Char.ofNat_toNat b, h]

theorem strLt_trans : ∀ {a b c : List Char},
    strLtChars a b = true → strLtChars b c = true → strLtChars a c = true := by
  intro a
  induction a with
  | nil =>
    intro b c hab hbc
    cases b <;> cases c <;> simp_all [strLtChars]
  | cons x xs ih =>
    intro b c hab hbc
    cases b with
    | nil => simp [strLtChars] at hab
    | cons y ys =>
      cases c with
      | nil => simp [strLtChars] at hbc
      | cons z zs =>
        simp only [strLtChars, Bool.or_eq_true, Bool.and_eq_true,
          decide_eq_true_eq, beq_iff_eq] at hab hbc ⊢
        rcases hab with h1 | ⟨e1, t1⟩ <;> rcases hbc with h2 | ⟨e2, t2⟩
        · exact Or.inl (h1.trans h2)
        · exact Or.inl (by omega)
        · exact Or.inl (by omega)
        · exact Or.inr ⟨e1.trans e2, ih t1 t2⟩

theorem strLt_asymm : ∀ {a b : List Char},
    strLtChars a b = true → strLtChars b a = true → False := by
  intro a
  induction a with
  | nil =>
    intro b hab hba
    cases b <;> simp_all [strLtChars]
  | cons x xs ih =>
    intro b hab hba
    cases b with
    | nil => simp [strLtChars] at hab
    | cons y ys =>
      simp only [strLtChars, Bool.or_eq_true, Bool.and_eq_true,
        decide_eq_true_eq, beq_iff_eq] at hab hba
      rcases hab with h1 | ⟨e1, t1⟩ <;> rcases hba with h2 | ⟨e2, t2⟩
      · omega
      · omega
      · omega
      · exact ih t1 t2

theorem strLt_irrefl (l : List Char) : strLtChars l l = false := by
  cases h : strLtChars l l
  · rfl
  · exact (strLt_asymm h h).elim

theorem strLt_connex : ∀ {a b : List Char},
    a ≠ b → strLtChars a b = true ∨ strLtChars b a = true := by
  intro a
  induction a with
  | nil =>
    intro b hne
    cases b with
    | nil => exact absurd rfl hne
    | cons y ys => exact Or.inl rfl
  | cons x xs ih =>
    intro b hne
    cases b with
    | nil => exact Or.inr rfl
    | cons y ys =>
      simp only [strLtChars, Bool.or_eq_true, Bool.and_eq_true,
        decide_eq_true_eq, beq_iff_eq]
      rcases Nat.lt_trichotomy x.toNat y.toNat with h | h | h
      · exact Or.inl (Or.inl h)
      · have hxy : x = y := char_toNat_inj h
        have hne' : xs ≠ ys := by
          intro hh
          exact hne (by rw [hxy, hh])
        rcases ih hne' with hl | hl
        · exact Or.inl (Or.inr ⟨h, hl⟩)
        · exact Or.inr (Or.inr ⟨h.symm, hl⟩)
      · exact Or.inr (Or.inl h)

theorem strLe_iff : ∀ {a b : List Char},
    strLeChars a b = true ↔ (strLtChars a b = true ∨ a = b) := by
  intro a
  induction a with
  | nil =>
    intro b
    cases b <;> simp [strLeChars, strLtChars]
  | cons x xs ih =>
    intro b
    cases b with
    | nil => simp [strLeChars, strLtChars]
    | cons y ys =>
      simp only [strLeChars, strLtChars, Bool.or_eq_true, Bool.and_eq_true,
        decide_eq_true_eq, beq_iff_eq, List.cons.injEq]
      constructor
      · rintro (h | ⟨e, t⟩)
        · exact Or.inl (Or.inl h)
        · rcases ih.mp t with hl | he
          · exact Or.inl (Or.inr ⟨e, hl⟩)
          · exact Or.inr ⟨char_toNat_inj e, he⟩
      · rintro ((h | ⟨e, t⟩) | ⟨e, he⟩)
        · exact Or.inl h
        · exact Or.inr ⟨e, ih.mpr (Or.inl t)⟩
        · exact Or.inr ⟨by rw [e], ih.mpr (Or.inr he)⟩

theorem strLe_refl (l : List Char) : strLeChars l l = true :=
  strLe_iff.mpr (Or.inr rfl)

theorem strLe_trans {a b c : List Char} (hab : strLeChars a b = true)
    (hbc : strLeChars b c = true) : strLeChars a c = true := by
  rcases strLe_iff.mp hab with h1 | rfl
  · rcases strLe_iff.mp hbc with h2 | rfl
    · exact strLe_iff.mpr (Or.inl (strLt_trans h1 h2))
    · exact strLe_iff.mpr (Or.inl h1)
  · exact hbc

theorem strLe_total (a b : List Char) :
    strLeChars a b = true ∨ strLeChars b a = true := by
  by_cases h : a = b
  · exact Or.inl (strLe_iff.mpr (Or.inr h))
  · rcases strLt_connex h with hl | hl
    · exact Or.inl (strLe_iff.mpr (Or.inl hl))
    · exact Or.inr (strLe_iff.mpr (Or.inl hl))

theorem strLe_antisymm {a b : List Char} (hab : strLeChars a b = true)
    (hba : strLeChars b a = true) : a = b := by
  rcases strLe_iff.mp hab with h1 | rfl
  · rcases strLe_iff.mp hba with h2 | rfl
    · exact (strLt_asymm h1 h2).elim
    · rfl
  · rfl

theorem strLt_of_le_of_ne {a b : List Char} (hab : strLeChars a b = true)
    (hne : a ≠ b) : strLtChars a b = true := by
  rcases strLe_iff.mp hab with h | rfl
  · exact h
  · exact absurd rfl hne

/-! Lemmas about the row ordering used by `ORDER BY ts ASC, message_id ASC`. -/

theorem optIdLe_total (a b : Option String) :
    optIdLe a b = true ∨ optIdLe b a = true := by
  cases a <;> cases b <;> simp [optIdLe]
  exact strLe_total _ _

theorem optIdLe_trans : ∀ {a b c : Option String},
    optIdLe a b = true → optIdLe b c = true → optIdLe a c = true := by
  intro a b c hab hbc
  cases a <;> cases b <;> cases c <;> simp_all [optIdLe]
  exact strLe_trans hab hbc

theorem optIdLt_of_le_of_ne : ∀ {a b : Option String},
    optIdLe a b = true → a ≠ b → optIdLt a b = true := by
  intro a b hle hne
  cases a <;> cases b <;> simp_all [optIdLe, optIdLt]
  exact strLt_of_le_of_ne hle (fun h => hne (String.ext h))

theorem optIdLt_asymm : ∀ {a b : Option String},
    optIdLt a b = true → optIdLt b a = true → False := by
  intro a b hab hba
  cases a <;> cases b <;> simp_all [optIdLt]
  exact strLt_asymm hab hba

instance rowOrder.isTotal : IsTotal Row rowOrder := by
  constructor
  intro a b
  show rowLe a b = true ∨ rowLe b a = true
  simp only [rowLe, Bool.or_eq_true, Bool.and_eq_true, beq_iff_eq]
  by_cases h : a.ts = b.ts
  · rcases optIdLe_total a.message_id b.message_id with hl | hl
    · exact Or.inl (Or.inr ⟨h, hl⟩)
    · exact Or.inr (Or.inr ⟨h.symm, hl⟩)
  · rcases strLt_connex (fun hd => h (String.ext hd)) with hl | hl
    · exact Or.inl (Or.inl hl)
    · exact Or.inr (Or.inl hl)

instance rowOrder.isTrans : IsTrans Row rowOrder := by
  constructor
  intro a b c hab hbc
  show rowLe a c = true
  have hab' : rowLe a b = true := hab
  have hbc' : rowLe b c = true := hbc
  simp only [rowLe, Bool.or_eq_true, Bool.and_eq_true, beq_iff_eq] at hab' hbc' ⊢
  rcases hab' with h1 | ⟨e1, t1⟩ <;> rcases hbc' with h2 | ⟨e2, t2⟩
  · exact Or.inl (strLt_trans h1 h2)
  · exact Or.inl (by rwa [← e2])
  · exact Or.inl (by rwa [e1])
  · exact Or.inr ⟨e1.trans e2, optIdLe_trans t1 t2⟩

theorem rowLt_of_le_of_ne {a b : Row} (hle : rowLe a b = true)
    (hne : a.message_id ≠ b.message_id) : rowLt a b = true := by
  simp only [rowLe, Bool.or_eq_true, Bool.and_eq_true, beq_iff_eq] at hle
  simp only [rowLt, Bool.or_eq_true, Bool.and_eq_true, beq_iff_eq]
  rcases hle with h | ⟨e, t⟩
  · exact Or.inl h
  · exact Or.inr ⟨e, optIdLt_of_le_of_ne t hne⟩

theorem rowLt_asymm {a b : Row} (hab : rowLt a b = true)
    (hba : rowLt b a = true) : False := by
  simp only [rowLt, Bool.or_eq_true, Bool.and_eq_true, beq_iff_eq] at hab hba
  rcases hab with h1 | ⟨e1, t1⟩ <;> rcases hba with h2 | ⟨e2, t2⟩
  · exact strLt_asymm h1 h2
  · rw [e2] at h1
    exact absurd h1 (by simp [strLt_irrefl])
  · rw [e1] at h2
    exact absurd h2 (by simp [strLt_irrefl])
  · exact optIdLt_asymm t1 t2

/-- A sorted permutation of a list that is pairwise-strictly ordered is
unique: two strictly ordered lists that are permutations of each other are
equal. -/
theorem eq_of_perm_of_pairwise {α : Type} {lt : α → α → Prop}
    (hasy : ∀ {x y : α}, lt x y → lt y x → False) :
    ∀ {l₁ l₂ : List α}, l₁.Perm l₂ →
      l₁.Pairwise lt → l₂.Pairwise lt → l₁ = l₂ := by
  intro l₁
  induction l₁ with
  | nil =>
    intro l₂ hp _ _
    exact (hp.nil_eq).symm ▸ rfl
  | cons a t₁ ih =>
    intro l₂ hp h1 h2
    cases l₂ with
    | nil => exact absurd hp.symm.nil_eq (by simp)
    | cons b t₂ =>
      by_cases hab : a = b
      · subst hab
        rw [ih hp.cons_inv (List.pairwise_cons.mp h1).2 (List.pairwise_cons.mp h2).2]
      · have ha2 : a ∈ b :: t₂ := hp.mem_iff.mp (List.mem_cons_self a t₁)
        have hb1 : b ∈ a :: t₁ := hp.symm.mem_iff.mp (List.mem_cons_self b t₂)
        have hat2 : a ∈ t₂ := by
          rcases List.mem_cons.mp ha2 with h | h
          · exact absurd h hab
          · exact h
        have hbt1 : b ∈ t₁ := by
          rcases List.mem_cons.mp hb1 with h | h
          · exact absurd h.symm hab
          · exact h
        have hab' : lt a b := (List.pairwise_cons.mp h1).1 b hbt1
        have hba' : lt b a := (List.pairwise_cons.mp h2).1 a hat2
        exact (hasy hab' hba').elim

/-- `rowLt` unfolded to a proposition. -/
theorem rowLt_iff {a b : Row} :
    rowLt a b = true ↔
      (strLtChars a.ts.data b.ts.data = true
        ∨ (a.ts = b.ts ∧ optIdLt a.message_id b.message_id = true)) := by
  simp [rowLt]

/-- The sorted filtered row list of `get_messages` is the unique
strictly-ordered enumeration of the matching rows: any strictly ordered
permutation of the matching rows is that list.  `hids` is the primary-key
invariant (pairwise distinct `message_id`s). -/
theorem insertionSort_filter_eq (t : List Row) (f s q : Option String)
    (hids : t.Pairwise (fun a b => a.message_id ≠ b.message_id))
    {l : List Row} (hp : l.Perm (t.filter (matchesFilters f s q)))
    (hs : l.Pairwise (fun a b => rowLt a b = true)) :
    List.insertionSort rowOrder (t.filter (matchesFilters f s q)) = l := by
  have hperm : (List.insertionSort rowOrder (t.filter (matchesFilters f s q))).Perm
      (t.filter (matchesFilters f s q)) := List.perm_insertionSort _ _
  have hsorted : (List.insertionSort rowOrder (t.filter (matchesFilters f s q))).Pairwise
      rowOrder := List.sorted_insertionSort rowOrder _
  have hne : (List.insertionSort rowOrder (t.filter (matchesFilters f s q))).Pairwise
      (fun a b => a.message_id ≠ b.message_id) :=
    (List.Perm.pairwise_iff (fun h => h.symm) hperm).mpr (hids.filter _)
  have hlt : (List.insertionSort rowOrder (t.filter (matchesFilters f s q))).Pairwise
      (fun a b => rowLt a b = true) :=
    (hsorted.and hne).imp (fun h => rowLt_of_le_of_ne h.1 h.2)
  exact eq_of_perm_of_pairwise (fun h1 h2 => rowLt_asymm h1 h2)
    (hperm.trans hp.symm) hlt hs

/-- C6: `get_messages` returns the window `[offset, offset+limit)` of the
matching rows in the deterministic total order `(ts ascending, message_id
ascending)`, its `total` is the number of rows matching the same predicate
regardless of `limit`/`offset`, and every returned item is the projection
of a matching stored row. -/
theorem get_messages_correct (t : List Row) (limit offset : Nat)
    (f s q : Option String)
    (hids : t.Pairwise (fun a b => a.message_id ≠ b.message_id)) :
    (get_messages t limit offset f s q).total = t.countP (matchesFilters f s q)
    ∧ (get_messages t limit offset f s q).total = (get_messages t 50 0 f s q).total
    ∧ (∀ x, x ∈ (get_messages t limit offset f s q).data →
        ∃ row, row ∈ t ∧ matchesFilters f s q row = true ∧ x = projRow row)
    ∧ (get_messages t limit offset f s q).data.Pairwise
        (fun x y => strLtChars x.ts.data y.ts.data = true
          ∨ (x.ts = y.ts ∧ optIdLt x.message_id y.message_id = true))
    ∧ (∀ l : List Row, l.Perm (t.filter (matchesFilters f s q)) →
        l.Pairwise (fun a b => rowLt a b = true) →
        (get_messages t limit offset f s q).data
          = ((l.drop offset).take limit).map projRow) := by
  refine ⟨?_, ?_, ?_, ?_, ?_⟩
  · rw [List.countP_eq_length_filter]
    rfl
  · rfl
  · intro x hx
    rcases List.mem_map.mp hx with ⟨row, hrow, hproj⟩
    have h1 : row ∈ List.insertionSort rowOrder (t.filter (matchesFilters f s q)) :=
      (List.drop_sublist _ _).mem (List.mem_of_mem_take hrow)
    have h2 : row ∈ t.filter (matchesFilters f s q) :=
      (List.perm_insertionSort rowOrder _).mem_iff.mp h1
    rcases List.mem_filter.mp h2 with ⟨hmem, hmatch⟩
    exact ⟨row, hmem, hmatch, hproj.symm⟩
  · have hsorted : (List.insertionSort rowOrder (t.filter (matchesFilters f s q))).Pairwise
        rowOrder := List.sorted_insertionSort rowOrder _
    have hne : (List.insertionSort rowOrder (t.filter (matchesFilters f s q))).Pairwise
        (fun a b => a.message_id ≠ b.message_id) :=
      (List.Perm.pairwise_iff (fun h => h.symm) (List.perm_insertionSort _ _)).mpr
        (hids.filter _)
    have hlt : (List.insertionSort rowOrder (t.filter (matchesFilters f s q))).Pairwise
        (fun a b => rowLt a b = true) :=
      (hsorted.and hne).imp (fun h => rowLt_of_le_of_ne h.1 h.2)
    have hpage : (((List.insertionSort rowOrder
        (t.filter (matchesFilters f s q))).drop offset).take limit).Pairwise
          (fun a b => rowLt a b = true) :=
      hlt.sublist ((List.take_sublist _ _).trans (List.drop_sublist _ _))
    show (((List.insertionSort rowOrder
      (t.filter (matchesFilters f s q))).drop offset).take limit).map projRow
        |>.Pairwise _
    rw [List.pairwise_map]
    exact hpage.imp (fun h => rowLt_iff.mp h)
  · intro l hp hs
    show (((List.insertionSort rowOrder
      (t.filter (matchesFilters f s q))).drop offset).take limit).map projRow = _
    rw [insertionSort_filter_eq t f s q hids hp hs]

/-- Concatenating the `n`-sized chunks of a list, in order, gives back the
list, as soon as `k * n` covers its length. -/
theorem chunks_flatten {α : Type} (n : Nat) (hn : 1 ≤ n) :
    ∀ (k : Nat) (l : List α), l.length ≤ k * n →
      ((List.range k).map (fun i => (l.drop (i * n)).take n)).flatten = l := by
  intro k
  induction k with
  | zero =>
    intro l hl
    have : l = [] := List.eq_nil_of_length_eq_zero (by omega)
    simp [this]
  | succ k ih =>
    intro l hl
    rw [List.range_succ_eq_map, List.map_cons, List.flatten_cons, List.map_map]
    have hfun : ∀ i ∈ List.range k,
        ((fun i => (l.drop (i * n)).take n) ∘ Nat.succ) i
          = (fun i => ((l.drop n).drop (i * n)).take n) i := by
      intro i _
      show (l.drop (Nat.succ i * n)).take n = ((l.drop n).drop (i * n)).take n
      rw [List.drop_drop]
      congr 2
      rw [Nat.succ_mul, Nat.add_comm]
    rw [List.map_congr_left hfun]
    have hlen : (l.drop n).length ≤ k * n := by
      rw [List.length_drop]
      have h2 : (k + 1) * n = k * n + n := by ring
      omega
    rw [ih (l.drop n) hlen]
    simp [List.take_append_drop]

/-- C7: stepping the offset by `limit` and concatenating the pages, in
order, reconstructs the full filtered sorted result set (any strictly
ordered enumeration `l` of the matching rows), with no duplicate and no
omission, as soon as `k` pages cover the matching count. -/
theorem get_messages_pages_flatten (t : List Row) (f s q : Option String)
    (limit k : Nat) (h1 : 1 ≤ limit) (h100 : limit ≤ 100)
    (hids : t.Pairwise (fun a b => a.message_id ≠ b.message_id))
    (hk : (t.filter (matchesFilters f s q)).length ≤ k * limit)
    {l : List Row} (hp : l.Perm (t.filter (matchesFilters f s q)))
    (hs : l.Pairwise (fun a b => rowLt a b = true)) :
    ((List.range k).map
        (fun i => (get_messages t limit (i * limit) f s q).data)).flatten
      = l.map projRow := by
  have hpages : ∀ i ∈ List.range k,
      (get_messages t limit (i * limit) f s q).data
        = (fun i => ((l.drop (i * limit)).take limit).map projRow) i := by
    intro i _
    exact (get_messages_correct t limit (i * limit) f s q hids).2.2.2.2 l hp hs
  rw [List.map_congr_left hpages]
  have hcomp : (List.range k).map
      (fun i => ((l.drop (i * limit)).take limit).map projRow)
        = ((List.range k).map (fun i => (l.drop (i * limit)).take limit)).map
            (List.map projRow) := by
    rw [List.map_map]
    rfl
  rw [hcomp, ← List.map_flatten]
  have hlenl : l.length ≤ k * limit := by
    rw [hp.length_eq]
    exact hk
  rw [chunks_flatten limit h1 k l hlenl]

/-- C10: an empty-string filter argument is treated exactly like an absent
one (Python truthiness), so `from_msisdn=""`, `since=""` and `q=""` impose
no constraint; in particular `q=""` matches every row, rows with null
`text` included, while a non-empty `q` never matches a null `text`. -/
theorem empty_string_filters_absent :
    (∀ (t : List Row) (limit offset : Nat) (s q : Option String),
      get_messages t limit offset (some "") s q = get_messages t limit offset none s q)
    ∧ (∀ (t : List Row) (limit offset : Nat) (f q : Option String),
      get_messages t limit offset f (some "") q = get_messages t limit offset f none q)
    ∧ (∀ (t : List Row) (limit offset : Nat) (f s : Option String),
      get_messages t limit offset f s (some "") = get_messages t limit offset f s none)
    ∧ (∀ r : Row, matchesFilters none none (some "") r = true)
    ∧ (∀ (q : String) (r : Row), q ≠ "" → r.text = none →
        matchesFilters none none (some q) r = false) := by
  refine ⟨?_, ?_, ?_, ?_, ?_⟩
  · intro t limit offset s q
    have h : matchesFilters (some "") s q = matchesFilters none s q := by
      funext r
      simp [matchesFilters]
    rw [get_messages, get_messages, h]
  · intro t limit offset f q
    have h : matchesFilters f (some "") q = matchesFilters f none q := by
      funext r
      simp [matchesFilters]
    rw [get_messages, get_messages, h]
  · intro t limit offset f s
    have h : matchesFilters f s (some "") = matchesFilters f s none := by
      funext r
      simp [matchesFilters]
    rw [get_messages, get_messages, h]
  · intro r
    simp [matchesFilters]
  · intro q r hq ht
    simp [matchesFilters, ht, hq]

/-! Lemmas about `get_stats`. -/

theorem strLe_of_not_le {a b : List Char} (h : ¬ strLeChars a b = true) :
    strLeChars b a = true := by
  rcases strLe_total a b with hh | hh
  · exact absurd hh h
  · exact hh

theorem strs_le_antisymm {a b : String} (hab : strLeChars a.data b.data = true)
    (hba : strLeChars b.data a.data = true) : a = b :=
  String.ext (strLe_antisymm hab hba)

theorem minTs_eq_none_iff (t : List Row) : minTs t = none ↔ t = [] := by
  cases t <;> simp [minTs]

theorem maxTs_eq_none_iff (t : List Row) : maxTs t = none ↔ t = [] := by
  cases t <;> simp [maxTs]

/-- `MIN(ts)` is the lexically least `ts` value. -/
theorem minTs_spec : ∀ (t : List Row) (s : String),
    minTs t = some s ↔
      (s ∈ t.map Row.ts ∧ ∀ u ∈ t.map Row.ts, strLeChars s.data u.data = true) := by
  intro t
  induction t with
  | nil => intro s; simp [minTs]
  | cons r rs ih =>
    intro s
    rw [List.map_cons]
    cases hmin : minTs rs with
    | none =>
      have hnil : rs = [] := (minTs_eq_none_iff rs).mp hmin
      subst hnil
      constructor
      · intro h
        simp [minTs] at h
        subst h
        exact ⟨by simp, by simp [strLe_refl]⟩
      · rintro ⟨hmem, hall⟩
        simp at hmem
        simp [minTs, hmem]
    | some m =>
      rcases (ih m).mp hmin with ⟨hmmem, hmall⟩
      constructor
      · intro h
        simp only [minTs, hmin, Option.some.injEq] at h
        by_cases hcmp : strLeChars r.ts.data m.data = true
        · rw [if_pos hcmp] at h
          subst h
          refine ⟨List.mem_cons_self _ _, ?_⟩
          intro u hu
          rcases List.mem_cons.mp hu with rfl | hu'
          · exact strLe_refl _
          · exact strLe_trans hcmp (hmall u hu')
        · rw [if_neg hcmp] at h
          subst h
          refine ⟨List.mem_cons_of_mem _ hmmem, ?_⟩
          intro u hu
          rcases List.mem_cons.mp hu with rfl | hu'
          · exact strLe_of_not_le hcmp
          · exact hmall u hu'
      · rintro ⟨hmem, hall⟩
        have hsr : strLeChars s.data r.ts.data = true := hall r.ts (List.mem_cons_self _ _)
        have hsm : strLeChars s.data m.data = true :=
          hall m (List.mem_cons_of_mem _ hmmem)
        simp only [minTs, hmin, Option.some.injEq]
        by_cases hcmp : strLeChars r.ts.data m.data = true
        · rw [if_pos hcmp]
          rcases List.mem_cons.mp hmem with rfl | hmem'
          · rfl
          · exact strs_le_antisymm (strLe_trans hcmp (hmall s hmem')) hsr
        · rw [if_neg hcmp]
          rcases List.mem_cons.mp hmem with rfl | hmem'
          · exact absurd hsm hcmp
          · exact strs_le_antisymm (hmall s hmem') hsm

/-- `MAX(ts)` is the lexically greatest `ts` value. -/
theorem maxTs_spec : ∀ (t : List Row) (s : String),
    maxTs t = some s ↔
      (s ∈ t.map Row.ts ∧ ∀ u ∈ t.map Row.ts, strLeChars u.data s.data = true) := by
  intro t
  induction t with
  | nil => intro s; simp [maxTs]
  | cons r rs ih =>
    intro s
    rw [List.map_cons]
    cases hmax : maxTs rs with
    | none =>
      have hnil : rs = [] := (maxTs_eq_none_iff rs).mp hmax
      subst hnil
      constructor
      · intro h
        simp [maxTs] at h
        subst h
        exact ⟨by simp, by simp [strLe_refl]⟩
      · rintro ⟨hmem, hall⟩
        simp at hmem
        simp [maxTs, hmem]
    | some m =>
      rcases (ih m).mp hmax with ⟨hmmem, hmall⟩
      constructor
      · intro h
        simp only [maxTs, hmax, Option.some.injEq] at h
        by_cases hcmp : strLeChars m.data r.ts.data = true
        · rw [if_pos hcmp] at h
          subst h
          refine ⟨List.mem_cons_self _ _, ?_⟩
          intro u hu
          rcases List.mem_cons.mp hu with rfl | hu'
          · exact strLe_refl _
          · exact strLe_trans (hmall u hu') hcmp
        · rw [if_neg hcmp] at h
          subst h
          refine ⟨List.mem_cons_of_mem _ hmmem, ?_⟩
          intro u hu
          rcases List.mem_cons.mp hu with rfl | hu'
          · exact strLe_of_not_le hcmp
          · exact hmall u hu'
      · rintro ⟨hmem, hall⟩
        have hsr : strLeChars r.ts.data s.data = true := hall r.ts (List.mem_cons_self _ _)
        have hsm : strLeChars m.data s.data = true :=
          hall m (List.mem_cons_of_mem _ hmmem)
        simp only [maxTs, hmax, Option.some.injEq]
        by_cases hcmp : strLeChars m.data r.ts.data = true
        · rw [if_pos hcmp]
          rcases List.mem_cons.mp hmem with rfl | hmem'
          · rfl
          · exact strs_le_antisymm hsr (strLe_trans (hmall s hmem') hcmp)
        · rw [if_neg hcmp]
          rcases List.mem_cons.mp hmem with rfl | hmem'
          · exact absurd hsm hcmp
          · exact strs_le_antisymm hsm (hmall s hmem')

theorem distinctCount_eq_card_toFinset : ∀ l : List String,
    distinctCount l = l.toFinset.card := by
  intro l
  induction l with
  | nil => rfl
  | cons s rest ih =>
    show (if rest.contains s then 0 else 1) + distinctCount rest = _
    by_cases h : s ∈ rest
    · have hc : rest.contains s = true := List.elem_iff.mpr h
      have ht : (s :: rest).toFinset = rest.toFinset := by
        rw [List.toFinset_cons, Finset.insert_eq_self.mpr (List.mem_toFinset.mpr h)]
      rw [hc, ht, ih]
      simp
    · have hc : rest.contains s = false := by
        rw [← Bool.not_eq_true]
        intro hh
        exact h (List.elem_iff.mp hh)
      have ht : (s :: rest).toFinset.card = rest.toFinset.card + 1 := by
        rw [List.toFinset_cons, Finset.card_insert_of_not_mem (by simpa using h)]
      rw [hc, ht, ih]
      simp
      omega

theorem distinctCount_pos : ∀ l : List String, l ≠ [] → 0 < distinctCount l := by
  intro l
  induction l with
  | nil => intro h; exact absurd rfl h
  | cons s rest ih =>
    intro _
    show 0 < (if rest.contains s then 0 else 1) + distinctCount rest
    by_cases hr : rest = []
    · subst hr
      simp [distinctCount]
    · have hpos := ih hr
      omega

theorem strLe_nil_iff (a : List Char) : strLeChars a [] = true ↔ a = [] := by
  cases a <;> simp [strLeChars]

theorem str_of_data_nil {u : String} (h : u.data = []) : u = "" :=
  String.ext h

/-- C8 (amended): `get_stats` reports the row count, the number of distinct
senders, and `total / senders` as the per-sender average (`0` on an empty
table); `first_message_ts` / `last_message_ts` are the lexical minimum /
maximum of the stored `ts` values, except that (by Python truthiness) an
empty-string minimum or maximum is reported as `null`, exactly like an
empty table. -/
theorem get_stats_correct (t : List Row) :
    (get_stats t).total_messages = t.length
    ∧ (get_stats t).senders_count = (t.map Row.from_msisdn).toFinset.card
    ∧ (t = [] → (get_stats t).messages_per_sender = 0)
    ∧ (t ≠ [] → (get_stats t).messages_per_sender
        = (t.length : ℚ) / ((t.map Row.from_msisdn).toFinset.card : ℚ))
    ∧ (∀ s : String, (get_stats t).first_message_ts = some s ↔
        s ≠ "" ∧ s ∈ t.map Row.ts
          ∧ ∀ u ∈ t.map Row.ts, strLeChars s.data u.data = true)
    ∧ ((get_stats t).first_message_ts = none ↔ t = [] ∨ "" ∈ t.map Row.ts)
    ∧ (∀ s : String, (get_stats t).last_message_ts = some s ↔
        s ≠ "" ∧ s ∈ t.map Row.ts
          ∧ ∀ u ∈ t.map Row.ts, strLeChars u.data s.data = true)
    ∧ ((get_stats t).last_message_ts = none ↔ ∀ u ∈ t.map Row.ts, u = "") := by
  have hfirst : (get_stats t).first_message_ts
      = (match minTs t with
        | none => none
        | some s => if s == "" then none else some s) := rfl
  have hlast : (get_stats t).last_message_ts
      = (match maxTs t with
        | none => none
        | some s => if s == "" then none else some s) := rfl
  refine ⟨rfl, distinctCount_eq_card_toFinset _, ?_, ?_, ?_, ?_, ?_, ?_⟩
  · intro h
    subst h
    rfl
  · intro h
    have hmap : t.map Row.from_msisdn ≠ [] := by
      intro hh
      exact h (List.map_eq_nil.mp hh)
    have hpos : 0 < distinctSenders t := distinctCount_pos _ hmap
    show (if 0 < distinctSenders t
        then (t.length : ℚ) / (distinctSenders t : ℚ) else 0) = _
    rw [if_pos hpos]
    rw [show distinctSenders t = (t.map Row.from_msisdn).toFinset.card from
      distinctCount_eq_card_toFinset _]
  · intro s
    cases hmin : minTs t with
    | none =>
      have ht : t = [] := (minTs_eq_none_iff t).mp hmin
      subst ht
      have h1 : (get_stats ([] : List Row)).first_message_ts = none := rfl
      rw [h1]
      simp
    | some m =>
      have h1 : (get_stats t).first_message_ts
          = (if (m == "") = true then none else some m) := by
        rw [hfirst, hmin]
      rw [h1]
      rcases (minTs_spec t m).mp hmin with ⟨hmmem, hmall⟩
      by_cases hm : m = ""
      · subst hm
        rw [if_pos (show (("" : String) == "") = true from rfl)]
        constructor
        · intro h
          exact absurd h (by simp)
        · rintro ⟨hs, hmem, hall⟩
          have : s = "" :=
            str_of_data_nil ((strLe_nil_iff s.data).mp (hall "" hmmem))
          exact absurd this hs
      · rw [if_neg (by simpa using hm)]
        constructor
        · intro h
          have hms : m = s := by
            injection h
          subst hms
          exact ⟨hm, hmmem, hmall⟩
        · rintro ⟨hs, hmem, hall⟩
          have : minTs t = some s := (minTs_spec t s).mpr ⟨hmem, hall⟩
          rw [hmin] at this
          exact this
  · cases hmin : minTs t with
    | none =>
      have ht : t = [] := (minTs_eq_none_iff t).mp hmin
      subst ht
      have h1 : (get_stats ([] : List Row)).first_message_ts = none := rfl
      rw [h1]
      simp
    | some m =>
      have h1 : (get_stats t).first_message_ts
          = (if (m == "") = true then none else some m) := by
        rw [hfirst, hmin]
      rw [h1]
      rcases (minTs_spec t m).mp hmin with ⟨hmmem, hmall⟩
      have htne : t ≠ [] := by
        intro h
        rw [(minTs_eq_none_iff t).mpr h] at hmin
        exact Option.noConfusion hmin
      by_cases hm : m = ""
      · subst hm
        rw [if_pos (show (("" : String) == "") = true from rfl)]
        simp [hmmem]
      · rw [if_neg (by simpa using hm)]
        constructor
        · intro h
          exact Option.noConfusion h
        · rintro (h | h)
          · exact absurd h htne
          · have : m = "" :=
              str_of_data_nil ((strLe_nil_iff m.data).mp (hmall "" h))
            exact absurd this hm
  · intro s
    cases hmax : maxTs t with
    | none =>
      have ht : t = [] := (maxTs_eq_none_iff t).mp hmax
      subst ht
      have h1 : (get_stats ([] : List Row)).last_message_ts = none := rfl
      rw [h1]
      simp
    | some m =>
      have h1 : (get_stats t).last_message_ts
          = (if (m == "") = true then none else some m) := by
        rw [hlast, hmax]
      rw [h1]
      rcases (maxTs_spec t m).mp hmax with ⟨hmmem, hmall⟩
      by_cases hm : m = ""
      · subst hm
        rw [if_pos (show (("" : String) == "") = true from rfl)]
        constructor
        · intro h
          exact absurd h (by simp)
        · rintro ⟨hs, hmem, hall⟩
          have hsle : strLeChars s.data "".data = true := hmall s hmem
          have : s = "" := str_of_data_nil ((strLe_nil_iff s.data).mp hsle)
          exact absurd this hs
      · rw [if_neg (by simpa using hm)]
        constructor
        · intro h
          have hms : m = s := by
            injection h
          subst hms
          exact ⟨hm, hmmem, hmall⟩
        · rintro ⟨hs, hmem, hall⟩
          have : maxTs t = some s := (maxTs_spec t s).mpr ⟨hmem, hall⟩
          rw [hmax] at this
          exact this
  · cases hmax : maxTs t with
    | none =>
      have ht : t = [] := (maxTs_eq_none_iff t).mp hmax
      subst ht
      have h1 : (get_stats ([] : List Row)).last_message_ts = none := rfl
      rw [h1]
      simp
    | some m =>
      have h1 : (get_stats t).last_message_ts
          = (if (m == "") = true then none else some m) := by
        rw [hlast, hmax]
      rw [h1]
      rcases (maxTs_spec t m).mp hmax with ⟨hmmem, hmall⟩
      by_cases hm : m = ""
      · subst hm
        rw [if_pos (show (("" : String) == "") = true from rfl)]
        constructor
        · intro _ u hu
          exact str_of_data_nil ((strLe_nil_iff u.data).mp (hmall u hu))
        · intro _
          rfl
      · rw [if_neg (by simpa using hm)]
        constructor
        · intro h
          exact Option.noConfusion h
        · intro hall
          exact absurd (hall m hmmem) hm

/-! Lemmas about `LIKE` matching. -/

theorem nil_mem_allSuffixes : ∀ cs : List Char, [] ∈ allSuffixes cs := by
  intro cs
  induction cs with
  | nil => exact List.mem_singleton.mpr rfl
  | cons c cs ih => exact List.mem_cons_of_mem _ ih

theorem self_mem_allSuffixes : ∀ cs : List Char, cs ∈ allSuffixes cs := by
  intro cs
  cases cs with
  | nil => exact List.mem_singleton.mpr rfl
  | cons c cs => exact List.mem_cons_self _ _

theorem mem_allSuffixes_append : ∀ pre rest : List Char,
    rest ∈ allSuffixes (pre ++ rest) := by
  intro pre
  induction pre with
  | nil => exact fun rest => self_mem_allSuffixes rest
  | cons p ps ih =>
    intro rest
    exact List.mem_cons_of_mem _ (ih rest)

theorem likeMatch_append_pct : ∀ xs ys : List Char,
    likeMatch (xs ++ ['%']) (xs ++ ys) = true := by
  intro xs
  induction xs with
  | nil =>
    intro ys
    show likeMatch ['%'] ys = true
    simp [likeMatch, List.any_eq_true]
    exact nil_mem_allSuffixes ys
  | cons x xs ih =>
    intro ys
    show likeMatch (x :: (xs ++ ['%'])) (x :: (xs ++ ys)) = true
    by_cases hx : x = '%'
    · subst hx
      simp only [likeMatch, beq_self_eq_true, if_true, List.any_eq_true]
      exact ⟨xs ++ ys, List.mem_cons_of_mem _ (self_mem_allSuffixes _), ih ys⟩
    · have hxb : (x == '%') = false := by simpa using hx
      simp only [likeMatch, hxb, Bool.false_eq_true, if_false, Bool.and_eq_true,
        Bool.or_eq_true, beq_self_eq_true]
      exact ⟨Or.inr trivial, ih ys⟩

/-- Any text containing the query as a (case-preserved) substring matches
the pattern `'%' ++ q ++ '%'`. -/
theorem likeMatch_contains (qs pre suf : List Char) :
    likeMatch ('%' :: (qs ++ ['%'])) (pre ++ (qs ++ suf)) = true := by
  show likeMatch ('%' :: (qs ++ ['%'])) (pre ++ (qs ++ suf)) = true
  simp only [likeMatch, beq_self_eq_true, if_true, List.any_eq_true]
  exact ⟨qs ++ suf, mem_allSuffixes_append pre (qs ++ suf),
    likeMatch_append_pct qs suf⟩

/-! Lemmas about the HMAC hex digest. -/

theorem length_hexOfBytes : ∀ bs : List Nat,
    (hexOfBytes bs).length = 2 * bs.length := by
  intro bs
  induction bs with
  | nil => rfl
  | cons b bs ih =>
    show (hexDigit (b / 16) :: hexDigit (b % 16) :: hexOfBytes bs).length = _
    simp [ih]
    omega

theorem length_sha256Bytes (msg : List Nat) : (sha256Bytes msg).length = 32 := by
  show (hash8Bytes _).length = 32
  simp [hash8Bytes, be4]

theorem hexDigit_ascii {n : Nat} (h : n < 16) : (hexDigit n).toNat < 128 := by
  interval_cases n <;> decide

theorem hexOfBytes_ascii : ∀ bs : List Nat, (∀ x ∈ bs, x < 256) →
    ∀ c ∈ hexOfBytes bs, c.toNat < 128 := by
  intro bs
  induction bs with
  | nil =>
    intro _ c hc
    simp [hexOfBytes] at hc
  | cons b bs ih =>
    intro hall c hc
    have hb : b < 256 := hall b (List.mem_cons_self _ _)
    have hceq : hexOfBytes (b :: bs)
        = hexDigit (b / 16) :: hexDigit (b % 16) :: hexOfBytes bs := rfl
    rw [hceq] at hc
    rcases List.mem_cons.mp hc with rfl | hc2
    · exact hexDigit_ascii (by omega)
    rcases List.mem_cons.mp hc2 with rfl | hc3
    · exact hexDigit_ascii (by omega)
    · exact ih (fun x hx => hall x (List.mem_cons_of_mem _ hx)) c hc3

theorem be4_lt (x : Nat) : ∀ b ∈ be4 x, b < 256 := by
  intro b hb
  simp [be4] at hb
  rcases hb with rfl | rfl | rfl | rfl <;> exact Nat.mod_lt _ (by norm_num)

theorem sha256Bytes_lt (msg : List Nat) : ∀ b ∈ sha256Bytes msg, b < 256 := by
  intro b hb
  simp only [sha256Bytes, hash8Bytes, List.mem_append] at hb
  rcases hb with ((((((h | h) | h) | h) | h) | h) | h) | h <;> exact be4_lt _ _ h

theorem ascii_of_mk_hex (bs : List Nat) (h : ∀ x ∈ bs, x < 256) :
    isAsciiStr (String.mk (hexOfBytes bs)) = true := by
  show (hexOfBytes bs).all _ = true
  rw [List.all_eq_true]
  intro c hc
  exact decide_eq_true (hexOfBytes_ascii bs h c hc)

/-- The computed digest string is always ASCII (lowercase hex), so
`compare_digest` can only raise for the provided signature's characters. -/
theorem hmacSha256Hex_ascii (s : String) (b : List Nat) :
    isAsciiStr (hmacSha256Hex s b) = true :=
  ascii_of_mk_hex _ (sha256Bytes_lt _)

theorem hmac_hex_ne_empty (s : String) (b : List Nat) : hmacSha256Hex s b ≠ "" := by
  intro h
  have hdata : hexOfBytes (sha256Bytes _) = ([] : List Char) := congrArg String.data h
  have hlen := congrArg List.length hdata
  rw [length_hexOfBytes, length_sha256Bytes] at hlen
  simp at hlen

/-! The behaviour of `insert_message`, characterized by the outcome
predicates. -/

theorem insert_message_eq (t : List Row) (m : Msg) (now : String) :
    insert_message t m now =
      (if requiredAbsent m then .error .keyError
       else if integrityViolation t m then .ok ("duplicate", t)
       else .ok ("created", t ++ [rowOfMsg m now])) := by
  obtain ⟨mid, mf, mt, mts, mtx⟩ := m
  cases mid <;> cases mf <;> cases mt <;> cases mts <;>
    first
    | rfl
    | simp [insert_message, pyKey, requiredAbsent, integrityViolation,
        rowOfMsg, pyGet, pyStr, isAbsent, isNull]

/-! The claim theorems. -/

/-- C1: a first insert of a schema-shaped message (string `message_id`,
`from`, `to`, `ts`) into a table not containing its id returns `"created"`
and appends the row; a second insert of any message with the same
`message_id` (and no missing required key) returns `"duplicate"` and leaves
the table unchanged; afterwards exactly one row with that `message_id`
exists, holding the field values and `created_at` of the first insert. -/
theorem insert_idempotent (t : List Row) (i f tv sv : String) (txt : PyVal)
    (now now2 : String) (m2 : Msg)
    (hfresh : hasId t i = false)
    (h2id : m2.message_id = .str i)
    (h2f : m2.from_ ≠ .absent) (h2t : m2.to_ ≠ .absent) (h2ts : m2.ts ≠ .absent) :
    insert_message t ⟨.str i, .str f, .str tv, .str sv, txt⟩ now
      = .ok ("created", t ++ [⟨some i, f, tv, sv, pyGet txt, now⟩])
    ∧ insert_message (t ++ [⟨some i, f, tv, sv, pyGet txt, now⟩]) m2 now2
      = .ok ("duplicate", t ++ [⟨some i, f, tv, sv, pyGet txt, now⟩])
    ∧ List.filter (fun r : Row => r.message_id == some i)
        (t ++ [(⟨some i, f, tv, sv, pyGet txt, now⟩ : Row)])
      = [(⟨some i, f, tv, sv, pyGet txt, now⟩ : Row)] := by
  refine ⟨?_, ?_, ?_⟩
  · simp [insert_message, pyKey, hfresh]
  · rw [insert_message_eq]
    have ha : requiredAbsent m2 = false := by
      obtain ⟨mid, mf, mt, mts, mtx⟩ := m2
      simp only at h2id
      subst h2id
      cases mf <;> cases mt <;> cases mts <;>
        simp_all [requiredAbsent, isAbsent]
    have hi : integrityViolation (t ++ [⟨some i, f, tv, sv, pyGet txt, now⟩]) m2
        = true := by
      simp [integrityViolation, h2id, hasId]
    rw [ha, hi]
    rfl
  · rw [List.filter_append]
    have h1 : t.filter (fun r => r.message_id == some i) = [] := by
      rw [List.filter_eq_nil_iff]
      intro a ha hp
      have : t.any (fun r => r.message_id == some i) = true :=
        List.any_eq_true.mpr ⟨a, ha, hp⟩
      rw [hasId] at hfresh
      rw [this] at hfresh
      exact Bool.noConfusion hfresh
    rw [h1]
    simp

/-- C1 witness: the first conjunct of `insert_idempotent` at a concrete
message and empty table. -/
theorem insert_idempotent_witness :
    insert_message [] ⟨.str "w1", .str "+911", .str "+922", .str "2025", .str "hi"⟩ "T1"
      = .ok ("created", [⟨some "w1", "+911", "+922", "2025", some "hi", "T1"⟩]) :=
  (insert_idempotent [] "w1" "+911" "+922" "2025" (.str "hi") "T1" "T2"
    ⟨.str "w1", .str "+911", .str "+922", .str "2025", .str "hi"⟩
    rfl rfl (by decide) (by decide) (by decide)).1

/-- C2: the webhook handler never validates the `WebhookMessage` schema (the
pydantic model is defined but unused): a request with a configured secret, a
correct signature, and a JSON body whose `from` field is "alice" (violating
the pattern `^\+\d+$`) is inserted and answered 200 ok, rather than being
rejected with 400 and no insert. -/
theorem webhook_no_schema_validation :
    webhook (some "testsecret") (utf8Bytes "payload")
      (some (hmacSha256Hex "testsecret" (utf8Bytes "payload")))
      (some ⟨.str "m1", .str "alice", .str "+922222222222",
        .str "2025-01-15T10:00:00Z", .null⟩) [] "T"
      = (.ok, [⟨some "m1", "alice", "+922222222222",
          "2025-01-15T10:00:00Z", none, "T"⟩]) := by
  have h1 : ¬((some "testsecret" : Option String) = none
      ∨ (some "testsecret" : Option String) = some "") := by decide
  have h2 : hmacSha256Hex "testsecret" (utf8Bytes "payload") ≠ "" :=
    hmac_hex_ne_empty _ _
  simp [webhook, h1, h2, verify_signature, compare_digest, hmacSha256Hex_ascii,
    insert_message, pyKey, hasId, pyGet]

/-- C3: counterexample — an insert whose `from` is JSON null into an EMPTY
table (the id does not exist) is reported as `"duplicate"`: the broad
`except sqlite3.IntegrityError` clause also catches the NOT NULL violation,
which the claim says must be an internal error, never a duplicate. -/
theorem insert_null_from_reported_duplicate :
    insert_message []
        ⟨.str "m1", .null, .str "+922222222222", .str "2025-01-15T10:00:00Z", .null⟩ "T"
      = .ok ("duplicate", [])
    ∧ hasId [] "m1" = false := ⟨rfl, rfl⟩

/-- C3 (amended): `insert_message` returns `"duplicate"` exactly when the
`INSERT` raises `sqlite3.IntegrityError` — i.e. when the (non-null) id
already exists OR a `NOT NULL` column (`from`/`to`/`ts`) receives null; a
missing required key raises `KeyError`, which propagates (never swallowed);
`KeyError` is the only exception the embedded function propagates. -/
theorem insert_message_duplicate_iff (t : List Row) (m : Msg) (now : String) :
    (insert_message t m now = .ok ("duplicate", t)
      ↔ (requiredAbsent m = false ∧ integrityViolation t m = true))
    ∧ (insert_message t m now = .error .keyError ↔ requiredAbsent m = true)
    ∧ (∀ e, insert_message t m now = .error e → e = .keyError) := by
  rw [insert_message_eq]
  by_cases ha : requiredAbsent m
  · simp [ha]
  · by_cases hi : integrityViolation t m
    · simp [ha, hi]
    · simp [ha, hi, show ("created" : String) ≠ "duplicate" from by decide]

/-- C3 witness: the duplicate-iff equivalence applied at a concrete message
with null `to` on an empty table. -/
theorem insert_message_duplicate_iff_witness :
    insert_message [] ⟨.str "m9", .str "+911", .null, .str "2025", .null⟩ "T"
      = .ok ("duplicate", []) :=
  (insert_message_duplicate_iff []
    ⟨.str "m9", .str "+911", .null, .str "2025", .null⟩ "T").1.mpr (by decide)

/-- C4: counterexample — with the stored text "Hello" the query "hello"
matches (`LIKE` is ASCII-case-insensitive), although "hello" is NOT a
case-sensitive substring of "Hello" as the claim requires. -/
theorem like_case_insensitive_counterexample :
    (get_messages [⟨some "m1", "+911111111111", "+922222222222",
        "2025-01-15T10:00:00Z", some "Hello", "T"⟩] 50 0 none none
        (some "hello")).total = 1
    ∧ specCsSubstring "hello".data "Hello".data = false := by
  constructor
  · decide
  · decide

/-- C4 (amended): a non-empty `q` filter matches a row iff the row also
passes the other filters, its `text` is non-null, and the SQLite pattern
`'%' ++ q ++ '%'` LIKE-matches the text — where `LIKE` compares ASCII
letters case-insensitively and gives `%`/`_` in `q` wildcard meaning; a
(case-preserved) substring occurrence still always matches; a null `text`
never matches a non-empty `q`. -/
theorem text_query_is_like :
    (∀ (f s : Option String) (qs : String) (r : Row), qs ≠ "" →
      (matchesFilters f s (some qs) r = true ↔
        (matchesFilters f s none r = true
          ∧ ∃ tx, r.text = some tx
              ∧ likeMatch ('%' :: (qs.data ++ ['%'])) tx.data = true)))
    ∧ (∀ (qs : String) (r : Row), qs ≠ "" → r.text = none →
        matchesFilters none none (some qs) r = false)
    ∧ (∀ (qs : String) (pre suf : List Char),
        likeMatch ('%' :: (qs.data ++ ['%'])) (pre ++ (qs.data ++ suf)) = true) := by
  refine ⟨?_, ?_, ?_⟩
  · intro f s qs r hq
    have hqs : (qs == "") = false := by simpa using hq
    cases hxt : r.text with
    | none => simp [matchesFilters, hqs, hxt]
    | some tx =>
      simp [matchesFilters, hqs, hxt]
  · intro qs r hq ht
    have hqs : (qs == "") = false := by simpa using hq
    simp [matchesFilters, hqs, ht]
  · intro qs pre suf
    exact likeMatch_contains qs.data pre suf

/-- C4 witness: the null-text conjunct of `text_query_is_like` at a concrete
row and query. -/
theorem text_query_is_like_witness :
    matchesFilters none none (some "abc")
      ⟨some "m1", "+911", "+922", "2025", none, "T"⟩ = false :=
  text_query_is_like.2.1 "abc" ⟨some "m1", "+911", "+922", "2025", none, "T"⟩
    (by decide) rfl

/-- C5: counterexample — `limit=500` is rejected with a 422 validation error
by `Query(50, ge=1, le=100)`, not clamped to 100 and answered 200 as the
claim states. -/
theorem list_messages_out_of_range_rejected :
    list_messages (some 500) none none none none [] = .validationError := by
  decide

/-- C5 (amended): the `GET /messages` handler takes `limit=50`, `offset=0`
when the parameters are absent, passes in-range values through to
`get_messages` verbatim, and REJECTS an out-of-range `limit` (< 1 or > 100)
or a negative `offset` with a 422 validation error instead of clamping. -/
theorem list_messages_validates :
    (∀ (f s q : Option String) (t : List Row),
      list_messages none none f s q t = .ok (get_messages t 50 0 f s q))
    ∧ (∀ (l o : Int) (f s q : Option String) (t : List Row),
      1 ≤ l → l ≤ 100 → 0 ≤ o →
      list_messages (some l) (some o) f s q t
        = .ok (get_messages t l.toNat o.toNat f s q))
    ∧ (∀ (l : Int) (o : Option Int) (f s q : Option String) (t : List Row),
      l < 1 ∨ 100 < l → list_messages (some l) o f s q t = .validationError)
    ∧ (∀ (l : Option Int) (o : Int) (f s q : Option String) (t : List Row),
      o < 0 → list_messages l (some o) f s q t = .validationError) := by
  refine ⟨?_, ?_, ?_, ?_⟩
  · intro f s q t
    rfl
  · intro l o f s q t h1 h2 h3
    show (if l < 1 ∨ 100 < l ∨ o < 0 then ListResp.validationError
      else .ok (get_messages t l.toNat o.toNat f s q)) = _
    rw [if_neg (by omega)]
  · intro l o f s q t h
    show (if l < 1 ∨ 100 < l ∨ (o.getD 0) < 0 then ListResp.validationError
      else _) = _
    rw [if_pos (by omega)]
  · intro l o f s q t h
    show (if (l.getD 50) < 1 ∨ 100 < (l.getD 50) ∨ o < 0
      then ListResp.validationError else _) = _
    rw [if_pos (by omega)]

/-- C5 witness: an in-range request delegates verbatim. -/
theorem list_messages_validates_witness :
    list_messages (some 1) (some 0) none none none []
      = .ok (get_messages [] 1 0 none none none) :=
  list_messages_validates.2.1 1 0 none none none [] (by decide) (by decide)
    (by decide)

/-- C6 witness: `get_messages_correct` applied to a concrete two-row table
with distinct ids. -/
theorem get_messages_correct_witness :
    (get_messages [⟨some "m1", "+911", "+922", "b", none, "T"⟩,
        ⟨some "m2", "+911", "+922", "a", none, "T"⟩] 1 0 none none none).total
      = List.countP (matchesFilters none none none)
          [⟨some "m1", "+911", "+922", "b", none, "T"⟩,
           ⟨some "m2", "+911", "+922", "a", none, "T"⟩] :=
  (get_messages_correct [⟨some "m1", "+911", "+922", "b", none, "T"⟩,
      ⟨some "m2", "+911", "+922", "a", none, "T"⟩] 1 0 none none none
    (by decide)).1

/-- C7 witness: `get_messages_pages_flatten` at a concrete three-row table,
`limit = 1`, three pages, and the strictly ordered enumeration of the rows. -/
theorem get_messages_pages_flatten_witness :
    ((List.range 3).map
        (fun i => (get_messages [⟨some "m1", "+911", "+922", "a", none, "T"⟩,
          ⟨some "m2", "+911", "+922", "b", none, "T"⟩,
          ⟨some "m3", "+911", "+922", "c", none, "T"⟩] 1 (i * 1)
            none none none).data)).flatten
      = List.map projRow [⟨some "m1", "+911", "+922", "a", none, "T"⟩,
          ⟨some "m2", "+911", "+922", "b", none, "T"⟩,
          ⟨some "m3", "+911", "+922", "c", none, "T"⟩] :=
  get_messages_pages_flatten [⟨some "m1", "+911", "+922", "a", none, "T"⟩,
      ⟨some "m2", "+911", "+922", "b", none, "T"⟩,
      ⟨some "m3", "+911", "+922", "c", none, "T"⟩] none none none 1 3
    (by decide) (by decide) (by decide) (by decide) (by decide) (by decide)

/-- C8: counterexample — on the non-empty table whose only row has
`ts = ""`, `get_stats` reports `first_message_ts = null` (Python truthiness
discards the empty-string minimum), contradicting "null iff the table is
empty". -/
theorem get_stats_empty_ts_counterexample :
    (get_stats [⟨some "m1", "+911111111111", "+922222222222", "", none, "T"⟩]).first_message_ts
      = none
    ∧ (get_stats [⟨some "m1", "+911111111111", "+922222222222", "", none, "T"⟩]).total_messages
      = 1 := ⟨rfl, rfl⟩

/-- C8 witness: the empty-table branch of `get_stats_correct`. -/
theorem get_stats_correct_witness :
    (get_stats ([] : List Row)).messages_per_sender = 0 :=
  (get_stats_correct []).2.2.1 rfl

/-- C9: counterexample — called with an absent (`None`) secret the verifier
raises `AttributeError` (`None.encode()`) instead of returning `false`. -/
theorem verify_signature_none_secret_raises :
    verify_signature none [] (some "deadbeef") = .error .attributeError := rfl

/-- C9 (amended): called with a string secret and an ASCII signature string,
`verify_signature` is total and returns exactly the equality of the provided
signature with the hex HMAC-SHA256 of the raw body — in particular `false`,
never an exception, on any such mismatch.  It is not a total boolean
function otherwise: a `None` secret raises `AttributeError`, a `None`
signature raises `TypeError`, and a signature string containing a non-ASCII
character (reachable through latin-1-decoded headers) makes
`hmac.compare_digest` raise `TypeError` — through the handler that surfaces
as 500, not 401.  The handler's guards keep the absent cases away from the
verifier: an absent secret is answered 503 before verification, and an
absent signature header is answered 401 without invoking it. -/
theorem verify_signature_guarded :
    (∀ (s : String) (body : List Nat) (sig : String), isAsciiStr sig = true →
      hmacSha256Hex s body ≠ sig →
        verify_signature (some s) body (some sig) = .ok false)
    ∧ (∀ (s : String) (body : List Nat) (sig : String), isAsciiStr sig = true →
      verify_signature (some s) body (some sig)
        = .ok (hmacSha256Hex s body == sig))
    ∧ (∀ (s : String) (body : List Nat) (sig : String), isAsciiStr sig = false →
      verify_signature (some s) body (some sig) = .error .typeError)
    ∧ (∀ (s : String) (body : List Nat) (sig : String) (jb : Option Msg)
        (t : List Row) (now : String),
      s ≠ "" → sig ≠ "" → isAsciiStr sig = false →
      webhook (some s) body (some sig) jb t now = (.internalError, t))
    ∧ (∀ (s : String) (body : List Nat) (jb : Option Msg) (t : List Row)
        (now : String), s ≠ "" →
      webhook (some s) body none jb t now = (.unauthorized, t))
    ∧ (∀ (body : List Nat) (sig : Option String) (jb : Option Msg)
        (t : List Row) (now : String),
      webhook none body sig jb t now = (.unavailable, t)) := by
  have hok : ∀ (s : String) (body : List Nat) (sig : String),
      isAsciiStr sig = true →
      verify_signature (some s) body (some sig)
        = .ok (hmacSha256Hex s body == sig) := by
    intro s body sig ha
    show compare_digest (hmacSha256Hex s body) sig = _
    rw [compare_digest, hmacSha256Hex_ascii, ha]
    rfl
  have herr : ∀ (s : String) (body : List Nat) (sig : String),
      isAsciiStr sig = false →
      verify_signature (some s) body (some sig) = .error .typeError := by
    intro s body sig ha
    show compare_digest (hmacSha256Hex s body) sig = _
    rw [compare_digest, ha, if_neg (by simp)]
  refine ⟨?_, hok, herr, ?_, ?_, ?_⟩
  · intro s body sig ha h
    rw [hok s body sig ha, beq_eq_false_iff_ne.mpr h]
  · intro s body sig jb t now hs hsig ha
    show (if (some s : Option String) = none ∨ (some s : Option String) = some ""
      then (HttpResp.unavailable, t) else _) = _
    rw [if_neg (by simp [hs])]
    show (if sig = "" then (HttpResp.unauthorized, t) else _) = _
    rw [if_neg hsig, herr s body sig ha]
  · intro s body jb t now hs
    show (if (some s : Option String) = none ∨ (some s : Option String) = some ""
      then (HttpResp.unavailable, t) else _) = _
    rw [if_neg (by simp [hs])]
  · intro body sig jb t now
    rfl

/-- C9 witness: the mismatch, non-ASCII, and guard cases at concrete inputs
(the empty string is ASCII but never the 64-character hex digest; `"\xff"`
holds a non-ASCII character). -/
theorem verify_signature_guarded_witness :
    verify_signature (some "k") [] (some "") = .ok false
    ∧ verify_signature (some "k") [] (some "\xff") = .error .typeError
    ∧ webhook (some "k") [] (some "\xff") none [] "T" = (.internalError, [])
    ∧ webhook (some "k") [] none none [] "T" = (.unauthorized, [])
    ∧ webhook none [] none none [] "T" = (.unavailable, []) :=
  ⟨verify_signature_guarded.1 "k" [] "" (by decide) (hmac_hex_ne_empty "k" []),
   verify_signature_guarded.2.2.1 "k" [] "\xff" (by decide),
   verify_signature_guarded.2.2.2.1 "k" [] "\xff" none [] "T" (by decide)
     (by decide) (by decide),
   verify_signature_guarded.2.2.2.2.1 "k" [] none [] "T" (by decide),
   verify_signature_guarded.2.2.2.2.2 [] none none [] "T"⟩

/-- C10 witness: the null-text conjunct of `empty_string_filters_absent` at a
concrete row. -/
theorem empty_string_filters_absent_witness :
    matchesFilters none none (some "zz")
      ⟨some "m7", "+911", "+922", "2025", none, "T"⟩ = false :=
  empty_string_filters_absent.2.2.2.2 "zz"
    ⟨some "m7", "+911", "+922", "2025", none, "T"⟩ (by decide) rfl

end Lyftr
